import Mathlib

/-!
Verification of the skillz repository cache and fetch subsystem.

Strings from the source are modelled as lists of Unicode characters
(`List Char`); filesystem directories are modelled as explicit listings of
their immediate entries; external effects (credential providers, the clone
call, directory existence) are passed in as explicit parameters.
-/

namespace Skillz

/-! ### Basic string helpers mirroring Rust std string operations -/

/-- Rust `str::split(sep)` on a character separator: always returns at least
one (possibly empty) piece; adjacent separators produce empty pieces. -/
def splitCh (sep : Char) : List Char → List (List Char)
  | [] => [[]]
  | c :: cs =>
    if c = sep then [] :: splitCh sep cs
    else
      match splitCh sep cs with
      | [] => [[c]]
      | h :: t => (c :: h) :: t

/-- Rust `str::find(pat)` followed by slicing off everything up to and
including the first occurrence of `pat`: returns the remainder after the
first occurrence of `pat`, or `none` when `pat` does not occur. -/
def dropAfterFirst (pat : List Char) : List Char → Option (List Char)
  | [] => if pat.isPrefixOf ([] : List Char) then some (([] : List Char).drop pat.length) else none
  | c :: cs =>
    if pat.isPrefixOf (c :: cs) then some ((c :: cs).drop pat.length)
    else dropAfterFirst pat cs

/-- Fueled worker for `trim_end_matches`: strips one trailing copy of `pat`
per step while `pat` is a suffix. -/
def trimSuffixAux (pat : List Char) : Nat → List Char → List Char
  | 0, s => s
  | fuel + 1, s =>
    if pat.isSuffixOf s then trimSuffixAux pat fuel (s.take (s.length - pat.length))
    else s

/-- Rust `str::trim_end_matches(pat)`: repeatedly remove `pat` from the end
while it is a suffix.  `s.length` steps of fuel are always enough because
each strip removes at least one character (for nonempty `pat`). -/
def trim_end_matches (pat s : List Char) : List Char :=
  trimSuffixAux pat s.length s

/-- Rust `String::contains(pat)` (substring occurrence). -/
def containsStr (hay pat : String) : Bool :=
  (dropAfterFirst pat.toList hay.toList).isSome

/-! ### cache.rs: name generation and URL parsing -/

/-- cache.rs `db_name`: format `{owner}-{repo}`. -/
def db_name (owner repo : List Char) : List Char :=
  owner ++ ['-'] ++ repo

/-- cache.rs `checkout_name`: format `{owner}-{repo}-{short_rev}` where
`short_rev = &rev[..7.min(rev.len())]`. -/
def checkout_name (owner repo rev : List Char) : List Char :=
  let short_rev := rev.take (min 7 rev.length)
  owner ++ ['-'] ++ repo ++ ['-'] ++ short_rev

/-- The characters of the literal `".git"` used by `parse_owner_repo`. -/
def dotGitSuffix : List Char := ['.', 'g', 'i', 't']

/-- The characters of the literal `"git@"` used by `parse_owner_repo`. -/
def sshUserPrefix : List Char := ['g', 'i', 't', '@']

/-- The characters of the literal `"://"` used by `parse_owner_repo`. -/
def schemeSep : List Char := [':', '/', '/']

/-- The characters of the literal `"https://"`. -/
def httpsScheme : List Char := ['h', 't', 't', 'p', 's', ':', '/', '/']

/-- cache.rs `parse_owner_repo`, URL-style branch: locate `"://"`, split the
remainder on `'/'`, require at least three segments, take segments 1 and 2. -/
def parseUrlStyle (url : List Char) : Option (List Char × List Char) :=
  match dropAfterFirst schemeSep url with
  | some path =>
    if 3 ≤ (splitCh '/' path).length then
      some ((splitCh '/' path).getD 1 [], (splitCh '/' path).getD 2 [])
    else none
  | none => none

/-- cache.rs `parse_owner_repo` after the `.git` suffix has been trimmed:
the `git@` SSH branch (with the early `?` return when `split(':').nth(1)`
is absent and the fall-through to the URL-style branch when fewer than two
path segments are present), then the URL-style branch. -/
def parse_owner_repo_trimmed (url : List Char) : Option (List Char × List Char) :=
  if sshUserPrefix.isPrefixOf url then
    match (splitCh ':' url)[1]? with
    | none => none
    | some path =>
      if 2 ≤ (splitCh '/' path).length then
        some ((splitCh '/' path).getD 0 [], (splitCh '/' path).getD 1 [])
      else parseUrlStyle url
  else parseUrlStyle url

/-- cache.rs `parse_owner_repo`: trim a trailing `.git`, then try the SSH
form and the URL form. -/
def parse_owner_repo (url : List Char) : Option (List Char × List Char) :=
  parse_owner_repo_trimmed (trim_end_matches dotGitSuffix url)

/-! ### Theorems for claim C3 -/

/-- C3: `checkout_name owner repo rev` is the string `owner-repo-` followed by
the first 7 characters of `rev`, and when `rev` is shorter than 7 characters
the full revision is kept unchanged. -/
theorem checkout_name_spec (owner repo rev : List Char) :
    checkout_name owner repo rev = owner ++ ['-'] ++ repo ++ ['-'] ++ rev.take 7
    ∧ (rev.length < 7 →
        checkout_name owner repo rev = owner ++ ['-'] ++ repo ++ ['-'] ++ rev) := by
  have htake : rev.take (min 7 rev.length) = rev.take 7 := by
    rcases Nat.le_total 7 rev.length with h | h
    · rw [Nat.min_eq_left h]
    · rw [Nat.min_eq_right h, List.take_length, List.take_of_length_le h]
  constructor
  · simp only [checkout_name, htake]
  · intro hlt
    simp only [checkout_name, htake, List.take_of_length_le (Nat.le_of_lt hlt)]

/-- Witness for C3 at the concrete inputs named by the claim. -/
theorem checkout_name_spec_witness :
    checkout_name "anthropics".toList "skills".toList "abc1234def".toList
        = "anthropics-skills-abc1234".toList
    ∧ ("ab".toList.length < 7
        ∧ checkout_name "x".toList "y".toList "ab".toList = "x-y-ab".toList) := by
  refine ⟨?_, by decide, ?_⟩
  · have h := (checkout_name_spec "anthropics".toList "skills".toList "abc1234def".toList).1
    rw [h]; decide
  · have h := (checkout_name_spec "x".toList "y".toList "ab".toList).2 (by decide)
    rw [h]; decide

/-! ### cache.rs: path resolution (PathResolver) -/

/-- Filesystem paths, modelled as lists of path segments; `PathBuf::join`
appends one segment. -/
abbrev Path := List String

/-- The process environment visible to cache.rs: the two override variables
and the user's home directory as reported by the platform. -/
structure Env where
  SKILO_CACHE : Option Path
  SKILO_HOME : Option Path
  home_dir : Option Path

/-- cache.rs `skilo_home`: `SKILO_HOME`, else the home directory joined with
`.skilo`. -/
def skilo_home (env : Env) : Option Path :=
  match env.SKILO_HOME with
  | some p => some p
  | none => env.home_dir.map (fun h => h ++ [".skilo"])

/-- cache.rs `git_dir`: `SKILO_CACHE`, else `skilo_home` joined with `git`. -/
def git_dir (env : Env) : Option Path :=
  match env.SKILO_CACHE with
  | some p => some p
  | none => (skilo_home env).map (fun h => h ++ ["git"])

/-- cache.rs `db_dir`: `git_dir` joined with `db`. -/
def db_dir (env : Env) : Option Path :=
  (git_dir env).map (fun g => g ++ ["db"])

/-- cache.rs `checkouts_dir`: `git_dir` joined with `checkouts`. -/
def checkouts_dir (env : Env) : Option Path :=
  (git_dir env).map (fun g => g ++ ["checkouts"])

/-! ### git/fetch.rs: source descriptor, clone configuration, fetch -/

/-- git/source.rs `GitSource`: url plus optional branch, tag and subdir. -/
structure GitSource where
  url : String
  branch : Option String
  tag : Option String
  subdir : Option String

/-- Modelled from the spec: `GitSource::reference` is defined in
src/git/source.rs, which is not present under src/ (fetch.rs only calls it).
The spec derives the fetch reference as branch, else tag, else none. -/
def GitSource.reference (s : GitSource) : Option String :=
  match s.branch with
  | some b => some b
  | none => s.tag

/-- The error type used by git/fetch.rs (variants as constructed there and
in commands/cache.rs). -/
inductive SkiloError where
  | Io (message : String)
  | InvalidSource (url : String) (message : String)
  | Network (message : String)
  | RepoNotFound (url : String)
  | Git (message : String)
  | Config (message : String)
deriving DecidableEq

/-- The aspects of git2 clone options that clone_repo sets from the source:
whether a depth-1 shallow transfer is requested and which branch to check
out. -/
structure CloneConfig where
  depth1 : Bool
  branch : Option String

/-- git/fetch.rs `clone_repo` option building: `fetch_opts.depth(1)` only
when `reference.is_none()`, and `builder.branch(ref_name)` when a reference
is present. -/
def clone_fetch_config (reference : Option String) : CloneConfig :=
  { depth1 := reference.isNone, branch := reference }

/-- An authentication credential produced by a provider (opaque payload). -/
abbrev Cred := String

/-- The credential types offered by the server on a connection attempt
(git2 `CredentialType` flags tested by the callback). -/
structure AllowedTypes where
  sshKey : Bool
  userPassPlaintext : Bool
  default : Bool

/-- git/fetch.rs `clone_repo` credentials callback: SSH agent when SSH-key
auth is offered and a username is known, else the credential helper when
plaintext user/password auth is offered, else the default credential when
allowed, else the "no valid credentials available" error.  Each branch
returns its provider's result directly. -/
def credentials_callback (allowed : AllowedTypes) (username_from_url : Option String)
    (ssh_key_from_agent : String → Except String Cred)
    (credential_helper : Option String → Except String Cred)
    (default_cred : Unit → Except String Cred) : Except String Cred :=
  let try_default : Except String Cred :=
    if allowed.default then default_cred ()
    else .error "no valid credentials available"
  let try_user_pass : Except String Cred :=
    if allowed.userPassPlaintext then credential_helper username_from_url
    else try_default
  if allowed.sshKey then
    match username_from_url with
    | some username => ssh_key_from_agent username
    | none => try_user_pass
  else try_user_pass

/-- git2 error codes distinguished by clone_repo's error mapping. -/
inductive GitErrorCode where
  | NotFound
  | GenericError
deriving DecidableEq

/-- git/fetch.rs `clone_repo` error mapping: message mentioning host
resolution, network or connection failures becomes `Network`; otherwise a
`NotFound` code becomes `RepoNotFound` with the original URL; anything else
becomes `Git` with the underlying message. -/
def classify_clone_error (url message : String) (code : GitErrorCode) : SkiloError :=
  if containsStr message "Could not resolve host" || containsStr message "network"
      || containsStr message "connection" then
    SkiloError.Network message
  else if code = GitErrorCode.NotFound then
    SkiloError.RepoNotFound url
  else
    SkiloError.Git message

/-- git/fetch.rs `fetch`: after a successful clone into the temporary
directory, the root is the subdir joined onto it (or the directory itself);
a missing root yields `InvalidSource` naming the subdirectory.  The clone
outcome and the existence of each subdirectory in the cloned tree are
explicit parameters; the returned root is `none` for the temporary directory
itself and `some sd` for its subdirectory `sd`. -/
def fetch (source : GitSource) (clone_result : Except SkiloError Unit)
    (subdir_exists : String → Bool) : Except SkiloError (Option String) :=
  match clone_result with
  | .error e => .error e
  | .ok _ =>
    let root_exists :=
      match source.subdir with
      | some sd => subdir_exists sd
      | none => true
    if root_exists then .ok source.subdir
    else
      .error (.InvalidSource source.url
        ("Subdirectory '" ++ source.subdir.getD "" ++ "' not found in repository"))

/-! ### Theorems for claim C10 -/

/-- C10: the git-cache directory is the SKILO_CACHE override when set, else
SKILO_HOME joined with `git`, else the home directory joined with
`.skilo/git`; it is undetermined exactly when no override is set and no home
directory exists; the derived accessors append `db` and `checkouts`. -/
theorem git_dir_resolution (env : Env) :
    (∀ p, env.SKILO_CACHE = some p → git_dir env = some p)
    ∧ (env.SKILO_CACHE = none → ∀ h, env.SKILO_HOME = some h →
        git_dir env = some (h ++ ["git"]))
    ∧ (env.SKILO_CACHE = none → env.SKILO_HOME = none → ∀ hd, env.home_dir = some hd →
        git_dir env = some (hd ++ [".skilo", "git"]))
    ∧ (git_dir env = none ↔
        env.SKILO_CACHE = none ∧ env.SKILO_HOME = none ∧ env.home_dir = none)
    ∧ db_dir env = (git_dir env).map (fun g => g ++ ["db"])
    ∧ checkouts_dir env = (git_dir env).map (fun g => g ++ ["checkouts"]) := by
  obtain ⟨c, h, hd⟩ := env
  refine ⟨?_, ?_, ?_, ?_, rfl, rfl⟩
  · rintro p rfl; rfl
  · rintro rfl p rfl; rfl
  · rintro rfl rfl p rfl
    simp [git_dir, skilo_home]
  · cases c <;> cases h <;> cases hd <;>
      simp [git_dir, skilo_home]

/-- Witness for C10: an environment with only a home directory resolves to
`home/.skilo/git`, and the db accessor appends `db`. -/
theorem git_dir_resolution_witness :
    git_dir ⟨none, none, some ["home", "user"]⟩ = some ["home", "user", ".skilo", "git"]
    ∧ db_dir ⟨none, none, some ["home", "user"]⟩
        = some ["home", "user", ".skilo", "git", "db"] := by
  have h := git_dir_resolution ⟨none, none, some ["home", "user"]⟩
  have h1 := h.2.2.1 rfl rfl ["home", "user"] rfl
  refine ⟨by rw [h1]; rfl, ?_⟩
  have h2 := h.2.2.2.2.1
  rw [h2, h1]
  rfl

/-! ### Theorems for claim C5 -/

/-- C5: a depth-1 shallow transfer is requested exactly when the source
specifies neither a branch nor a tag; when a branch or tag is requested the
clone is full-history-capable and the reference is passed as the branch. -/
theorem shallow_clone_policy (s : GitSource) :
    ((clone_fetch_config s.reference).depth1 = true ↔ s.branch = none ∧ s.tag = none)
    ∧ (∀ b, s.branch = some b →
        (clone_fetch_config s.reference).depth1 = false
        ∧ (clone_fetch_config s.reference).branch = some b)
    ∧ (s.branch = none → ∀ t, s.tag = some t →
        (clone_fetch_config s.reference).depth1 = false
        ∧ (clone_fetch_config s.reference).branch = some t) := by
  obtain ⟨u, b, t, sd⟩ := s
  refine ⟨?_, ?_, ?_⟩
  · cases b <;> cases t <;>
      simp [clone_fetch_config, GitSource.reference]
  · rintro b' rfl
    simp [clone_fetch_config, GitSource.reference]
  · rintro rfl t' rfl
    simp [clone_fetch_config, GitSource.reference]

/-- Witness for C5: a tag-only source is cloned full-history with the tag as
the branch, and a ref-free source is cloned shallow. -/
theorem shallow_clone_policy_witness :
    ((clone_fetch_config (GitSource.reference ⟨"u", none, some "v1.0", none⟩)).depth1 = false
      ∧ (clone_fetch_config (GitSource.reference ⟨"u", none, some "v1.0", none⟩)).branch
          = some "v1.0")
    ∧ (clone_fetch_config (GitSource.reference ⟨"u", none, none, none⟩)).depth1 = true := by
  refine ⟨(shallow_clone_policy ⟨"u", none, some "v1.0", none⟩).2.2 rfl "v1.0" rfl, ?_⟩
  exact ((shallow_clone_policy ⟨"u", none, none, none⟩).1).mpr ⟨rfl, rfl⟩

/-! ### Theorems for claim C2 -/

/-- C2 counterexample: with all credential types offered and a username
known, a failing SSH-agent provider makes the callback fail even though the
credential helper would have succeeded — the next provider is not tried. -/
theorem credentials_no_fallback_counterexample :
    credentials_callback ⟨true, true, true⟩ (some "git")
        (fun _ => Except.error "agent: no identities")
        (fun _ => Except.ok "helper-cred")
        (fun _ => Except.ok "default-cred")
      = Except.error "agent: no identities"
    ∧ credentials_callback ⟨true, true, true⟩ (some "git")
        (fun _ => Except.error "agent: no identities")
        (fun _ => Except.ok "helper-cred")
        (fun _ => Except.ok "default-cred")
      ≠ Except.ok "helper-cred" := by
  exact ⟨rfl, fun h => Except.noConfusion h⟩

/-- C2 amended: the callback returns the result of the first applicable
provider — SSH agent when SSH-key auth is offered and a username is known,
else the credential helper when plaintext auth is offered, else the default
credential when allowed — whether that result is a success or a failure
(no fallback to later providers on failure); when no provider applies it
fails with the "no valid credentials available" error. -/
theorem credentials_callback_spec (allowed : AllowedTypes) (u : Option String)
    (agent : String → Except String Cred) (helper : Option String → Except String Cred)
    (dflt : Unit → Except String Cred) :
    (allowed.sshKey = true → ∀ name, u = some name →
        credentials_callback allowed u agent helper dflt = agent name)
    ∧ ((allowed.sshKey = false ∨ u = none) → allowed.userPassPlaintext = true →
        credentials_callback allowed u agent helper dflt = helper u)
    ∧ ((allowed.sshKey = false ∨ u = none) → allowed.userPassPlaintext = false →
        allowed.default = true →
        credentials_callback allowed u agent helper dflt = dflt ())
    ∧ ((allowed.sshKey = false ∨ u = none) → allowed.userPassPlaintext = false →
        allowed.default = false →
        credentials_callback allowed u agent helper dflt
          = Except.error "no valid credentials available") := by
  obtain ⟨k, p, d⟩ := allowed
  refine ⟨?_, ?_, ?_, ?_⟩
  · rintro hk name rfl
    subst hk
    rfl
  · rintro (hk | hu) hp <;> subst hp
    · subst hk; cases u <;> rfl
    · subst hu; cases k <;> rfl
  · rintro (hk | hu) hp hd <;> subst hp <;> subst hd
    · subst hk; cases u <;> rfl
    · subst hu; cases k <;> rfl
  · rintro (hk | hu) hp hd <;> subst hp <;> subst hd
    · subst hk; cases u <;> rfl
    · subst hu; cases k <;> rfl

/-- Witness for C2 amended: when only plaintext auth is offered the helper's
result is returned. -/
theorem credentials_callback_spec_witness :
    credentials_callback ⟨false, true, true⟩ (some "git")
        (fun _ => Except.error "agent: no identities")
        (fun _ => Except.ok "helper-cred")
        (fun _ => Except.ok "default-cred")
      = Except.ok "helper-cred" := by
  have h := (credentials_callback_spec ⟨false, true, true⟩ (some "git")
      (fun _ => Except.error "agent: no identities")
      (fun _ => Except.ok "helper-cred")
      (fun _ => Except.ok "default-cred")).2.1 (Or.inl rfl) rfl
  exact h

/-! ### Theorems for claim C4 -/

/-- C4 counterexample: a clone failure whose git2 code is NotFound but whose
message mentions a connection failure is classified as a network error, not
as repository-not-found. -/
theorem classify_notfound_counterexample :
    classify_clone_error "https://example.com/o/r" "connection reset by peer"
        GitErrorCode.NotFound
      = SkiloError.Network "connection reset by peer"
    ∧ classify_clone_error "https://example.com/o/r" "connection reset by peer"
        GitErrorCode.NotFound
      ≠ SkiloError.RepoNotFound "https://example.com/o/r" := by
  constructor
  · decide
  · decide

/-- C4 amended: a clone failure whose message mentions host resolution,
network, or connection is returned as a network error (this check takes
precedence); a NotFound-coded failure whose message mentions none of these
is returned as repository-not-found carrying the original URL; every other
failure is returned as a generic version-control error preserving the
message. -/
theorem classify_clone_error_spec (url message : String) (code : GitErrorCode) :
    ((containsStr message "Could not resolve host" || containsStr message "network"
        || containsStr message "connection") = true →
      classify_clone_error url message code = SkiloError.Network message)
    ∧ ((containsStr message "Could not resolve host" || containsStr message "network"
        || containsStr message "connection") = false →
      code = GitErrorCode.NotFound →
      classify_clone_error url message code = SkiloError.RepoNotFound url)
    ∧ ((containsStr message "Could not resolve host" || containsStr message "network"
        || containsStr message "connection") = false →
      code ≠ GitErrorCode.NotFound →
      classify_clone_error url message code = SkiloError.Git message) := by
  refine ⟨?_, ?_, ?_⟩
  · intro h
    simp [classify_clone_error, h]
  · rintro h rfl
    simp [classify_clone_error, h]
  · intro h hc
    simp [classify_clone_error, h, hc]

/-- Witness for C4 amended: a NotFound failure with a plain message maps to
RepoNotFound with the original URL. -/
theorem classify_clone_error_spec_witness :
    classify_clone_error "https://example.com/o/r" "remote repository missing"
        GitErrorCode.NotFound
      = SkiloError.RepoNotFound "https://example.com/o/r" := by
  have h := (classify_clone_error_spec "https://example.com/o/r"
      "remote repository missing" GitErrorCode.NotFound).2.1 (by decide) rfl
  exact h

/-! ### Theorems for claim C8 -/

/-- C8: after a successful clone, a requested subdir that does not exist in
the cloned tree yields an invalid-source error naming the missing
subdirectory; when the subdir exists (or none was requested) the fetch
succeeds with root temp/subdir (respectively the temporary directory). -/
theorem fetch_subdir_check (source : GitSource) (clone_result : Except SkiloError Unit)
    (ex : String → Bool) (hclone : clone_result = Except.ok ()) :
    (∀ sd, source.subdir = some sd → ex sd = false →
        fetch source clone_result ex
          = Except.error (SkiloError.InvalidSource source.url
              ("Subdirectory '" ++ sd ++ "' not found in repository")))
    ∧ (∀ sd, source.subdir = some sd → ex sd = true →
        fetch source clone_result ex = Except.ok (some sd))
    ∧ (source.subdir = none → fetch source clone_result ex = Except.ok none) := by
  subst hclone
  refine ⟨?_, ?_, ?_⟩
  · intro sd hsd hex
    simp [fetch, hsd, hex]
  · intro sd hsd hex
    simp [fetch, hsd, hex]
  · intro hsd
    simp [fetch, hsd]

/-- Witness for C8: a fetch requesting the missing subdirectory "skills"
fails with the invalid-source error naming it, and one requesting no
subdirectory succeeds. -/
theorem fetch_subdir_check_witness :
    fetch ⟨"https://example.com/o/r", none, none, some "skills"⟩ (Except.ok ()) (fun _ => false)
      = Except.error (SkiloError.InvalidSource "https://example.com/o/r"
          "Subdirectory 'skills' not found in repository")
    ∧ fetch ⟨"https://example.com/o/r", none, none, none⟩ (Except.ok ()) (fun _ => false)
      = Except.ok none := by
  constructor
  · have h := (fetch_subdir_check ⟨"https://example.com/o/r", none, none, some "skills"⟩
        (Except.ok ()) (fun _ => false) rfl).1 "skills" rfl rfl
    exact h
  · exact (fetch_subdir_check ⟨"https://example.com/o/r", none, none, none⟩
        (Except.ok ()) (fun _ => false) rfl).2.2 rfl

/-! ### cache.rs: eviction (Evictor) over modelled directory listings -/

/-- One immediate entry of a cache directory as the eviction and statistics
code observes it: its name, whether it is a directory, its recursive size,
its modification time (`none` when the metadata or mtime is unreadable,
measured in seconds), and whether a `remove_dir_all` on it succeeds. -/
structure DirEntry where
  name : String
  is_dir : Bool
  size : Nat
  modified : Option Nat
  removable : Bool
deriving DecidableEq

/-- cache.rs `clean_old_checkouts` loop body over the entries of the
checkouts directory: skip non-directories, entries with unreadable metadata
or modification time, entries whose modification time is in the future, and
entries no older than the cutoff; compute the size and attempt removal of
the rest, counting only removals that succeed.  Returns the removed count,
the freed bytes, and the entries left on disk. -/
def clean_old_entries (now max_age : Nat) : List DirEntry → Nat × Nat × List DirEntry
  | [] => (0, 0, [])
  | e :: es =>
    let rest := clean_old_entries now max_age es
    if e.is_dir then
      match e.modified with
      | some m =>
        if m ≤ now then
          if now - m > max_age then
            if e.removable then (rest.1 + 1, rest.2.1 + e.size, rest.2.2)
            else (rest.1, rest.2.1, e :: rest.2.2)
          else (rest.1, rest.2.1, e :: rest.2.2)
        else (rest.1, rest.2.1, e :: rest.2.2)
      | none => (rest.1, rest.2.1, e :: rest.2.2)
    else (rest.1, rest.2.1, e :: rest.2.2)

/-- cache.rs `clean_old_checkouts`: `(0, 0)` when the checkouts directory
cannot be resolved or does not exist, otherwise the loop above with the
cutoff `max_age_days * 24 * 60 * 60` seconds. -/
def clean_old_checkouts (checkouts : Option (List DirEntry)) (max_age_days now : Nat) :
    Nat × Nat × List DirEntry :=
  match checkouts with
  | none => (0, 0, [])
  | some entries => clean_old_entries now (max_age_days * 24 * 60 * 60) entries

/-- The entries `clean_old_checkouts` removes: directories with a readable,
non-future modification time whose age strictly exceeds the cutoff and whose
removal succeeds. -/
def evicted (now max_age : Nat) (e : DirEntry) : Bool :=
  e.is_dir
    && (match e.modified with
        | some m => decide (m ≤ now) && decide (max_age < now - m)
        | none => false)
    && e.removable

/-- cache.rs `clean_all` loop body over one directory's entries: compute the
size of each immediate subdirectory and attempt removal, counting only
successes; non-directories are skipped. -/
def clean_all_entries : List DirEntry → Nat × Nat × List DirEntry
  | [] => (0, 0, [])
  | e :: es =>
    let rest := clean_all_entries es
    if e.is_dir then
      if e.removable then (rest.1 + 1, rest.2.1 + e.size, rest.2.2)
      else (rest.1, rest.2.1, e :: rest.2.2)
    else (rest.1, rest.2.1, e :: rest.2.2)

/-- cache.rs `clean_all`: clean the checkouts directory first, then db,
returning `(repos_removed, checkouts_removed, freed)` together with what
remains in each directory. -/
def clean_all (checkouts db : Option (List DirEntry)) :
    (Nat × Nat × Nat) × List DirEntry × List DirEntry :=
  let c :=
    match checkouts with
    | none => ((0 : Nat), (0 : Nat), ([] : List DirEntry))
    | some es => clean_all_entries es
  let d :=
    match db with
    | none => ((0 : Nat), (0 : Nat), ([] : List DirEntry))
    | some es => clean_all_entries es
  ((d.1, c.1, c.2.1 + d.2.1), c.2.2, d.2.2)

/-- The entries `clean_all` removes: directories whose removal succeeds. -/
def removable_dir (e : DirEntry) : Bool :=
  e.is_dir && e.removable

/-! ### Theorems for claim C6 -/

/-- C6: eviction removes exactly the immediate subdirectories whose age
strictly exceeds `max_age_days * 24 * 60 * 60` seconds (and whose removal
succeeds), leaves every other entry untouched — non-directories and entries
with unreadable or future modification times included — counts and sums
freed bytes only over successful removals, and returns zeros for an absent
checkouts directory. -/
theorem clean_old_checkouts_spec (entries : List DirEntry) (max_age_days now : Nat) :
    clean_old_checkouts none max_age_days now = (0, 0, [])
    ∧ clean_old_checkouts (some entries) max_age_days now
        = (entries.countP (evicted now (max_age_days * 24 * 60 * 60)),
           ((entries.filter (evicted now (max_age_days * 24 * 60 * 60))).map DirEntry.size).sum,
           entries.filter (fun e => ! evicted now (max_age_days * 24 * 60 * 60) e)) := by
  refine ⟨rfl, ?_⟩
  show clean_old_entries now (max_age_days * 24 * 60 * 60) entries = _
  induction entries with
  | nil => rfl
  | cons e es ih =>
    by_cases hdir : e.is_dir = true
    · rcases hm : e.modified with _ | m
      · simp [clean_old_entries, evicted, hdir, hm, ih, List.countP_cons, List.filter_cons]
      · by_cases hle : m ≤ now
        · by_cases hage : now - m > max_age_days * 24 * 60 * 60
          · by_cases hrem : e.removable = true
            · simp [clean_old_entries, evicted, hdir, hm, hle, hage, hrem, ih,
                List.countP_cons, List.filter_cons, Nat.add_comm]
            · simp [clean_old_entries, evicted, hdir, hm, hle, hage, hrem, ih,
                List.countP_cons, List.filter_cons]
          · simp [clean_old_entries, evicted, hdir, hm, hle, hage, ih,
              List.countP_cons, List.filter_cons]
        · simp [clean_old_entries, evicted, hdir, hm, hle, ih,
            List.countP_cons, List.filter_cons]
    · simp [clean_old_entries, evicted, hdir, ih, List.countP_cons, List.filter_cons]

/-! ### Theorems for claim C7 -/

/-- C7: clean_all removes every removable immediate subdirectory of
checkouts/ and then of db/, returning the two counts of entries actually
removed (mirrors first in the tuple), the freed bytes summed over the sizes
of removed entries, and leaving both directories empty whenever every entry
is a directory whose removal succeeds. -/
theorem clean_all_spec (cs ds : List DirEntry) :
    clean_all (some cs) (some ds)
        = ((ds.countP removable_dir, cs.countP removable_dir,
            ((cs.filter removable_dir).map DirEntry.size).sum
              + ((ds.filter removable_dir).map DirEntry.size).sum),
           cs.filter (fun e => ! removable_dir e),
           ds.filter (fun e => ! removable_dir e))
    ∧ ((∀ e ∈ cs, removable_dir e = true) → (∀ e ∈ ds, removable_dir e = true) →
        (clean_all (some cs) (some ds)).2.1 = [] ∧ (clean_all (some cs) (some ds)).2.2 = []) := by
  have key : ∀ l : List DirEntry, clean_all_entries l
      = (l.countP removable_dir, ((l.filter removable_dir).map DirEntry.size).sum,
         l.filter (fun e => ! removable_dir e)) := by
    intro l
    induction l with
    | nil => rfl
    | cons e es ih =>
      by_cases hdir : e.is_dir = true
      · by_cases hrem : e.removable = true
        · simp [clean_all_entries, removable_dir, hdir, hrem, ih,
            List.countP_cons, List.filter_cons, Nat.add_comm]
        · simp [clean_all_entries, removable_dir, hdir, hrem, ih,
            List.countP_cons, List.filter_cons]
      · simp [clean_all_entries, removable_dir, hdir, ih,
          List.countP_cons, List.filter_cons]
  constructor
  · show (((clean_all_entries ds).1, (clean_all_entries cs).1,
        (clean_all_entries cs).2.1 + (clean_all_entries ds).2.1),
        (clean_all_entries cs).2.2, (clean_all_entries ds).2.2) = _
    rw [key cs, key ds]
  · intro hc hd
    constructor
    · show (clean_all_entries cs).2.2 = []
      rw [key cs]
      simpa using hc
    · show (clean_all_entries ds).2.2 = []
      rw [key ds]
      simpa using hd

/-- Witness for C7: two removable checkout directories and one removable
mirror are all removed, both directories end empty, and the counts and freed
bytes match. -/
theorem clean_all_spec_witness :
    clean_all (some [⟨"a-b-1234567", true, 10, some 5, true⟩,
                     ⟨"c-d-89abcde", true, 7, none, true⟩])
              (some [⟨"a-b", true, 100, none, true⟩])
      = ((1, 2, 117), [], []) := by
  have h := (clean_all_spec
      [⟨"a-b-1234567", true, 10, some 5, true⟩, ⟨"c-d-89abcde", true, 7, none, true⟩]
      [⟨"a-b", true, 100, none, true⟩]).1
  rw [h]
  decide

/-! ### cache.rs: cache statistics (CacheStore) -/

/-- cache.rs `CachedRepo`: name and recursive size of one db/ entry. -/
structure CachedRepo where
  name : String
  size : Nat
deriving DecidableEq

/-- cache.rs `CachedCheckout`: name, recursive size and modification time of
one checkouts/ entry. -/
structure CachedCheckout where
  name : String
  size : Nat
  modified : Option Nat
deriving DecidableEq

/-- cache.rs `CacheStats`. -/
structure CacheStats where
  repos : List CachedRepo
  checkouts : List CachedCheckout
  db_size : Nat
  checkouts_size : Nat
deriving DecidableEq

/-- Name order on db/ entries, as used by `stats.repos.sort_by`. -/
def CachedRepo.le (a b : CachedRepo) : Prop := a.name ≤ b.name

/-- Name order on checkouts/ entries, as used by `stats.checkouts.sort_by`. -/
def CachedCheckout.le (a b : CachedCheckout) : Prop := a.name ≤ b.name

instance : DecidableRel CachedRepo.le :=
  fun a b => inferInstanceAs (Decidable (a.name ≤ b.name))

instance : DecidableRel CachedCheckout.le :=
  fun a b => inferInstanceAs (Decidable (a.name ≤ b.name))

instance : IsTotal CachedRepo CachedRepo.le :=
  ⟨fun a b => le_total a.name b.name⟩

instance : IsTotal CachedCheckout CachedCheckout.le :=
  ⟨fun a b => le_total a.name b.name⟩

instance : IsTrans CachedRepo CachedRepo.le :=
  ⟨fun _ _ _ => le_trans⟩

instance : IsTrans CachedCheckout CachedCheckout.le :=
  ⟨fun _ _ _ => le_trans⟩

/-- cache.rs `CacheStats::collect`, db loop: record each immediate
subdirectory with its recursive size and add that size to `db_size`. -/
def collect_repos : List DirEntry → List CachedRepo × Nat
  | [] => ([], 0)
  | e :: es =>
    let rest := collect_repos es
    if e.is_dir then (⟨e.name, e.size⟩ :: rest.1, e.size + rest.2)
    else rest

/-- cache.rs `CacheStats::collect`, checkouts loop: as for db, also
recording the modification time. -/
def collect_checkouts : List DirEntry → List CachedCheckout × Nat
  | [] => ([], 0)
  | e :: es =>
    let rest := collect_checkouts es
    if e.is_dir then (⟨e.name, e.size, e.modified⟩ :: rest.1, e.size + rest.2)
    else rest

/-- cache.rs `CacheStats::collect`: enumerate each cache subdirectory when
it exists (`none` models an absent directory or a failed enumeration), then
sort both lists by name. -/
def CacheStats.collect (db checkouts : Option (List DirEntry)) : CacheStats :=
  let d :=
    match db with
    | none => (([] : List CachedRepo), (0 : Nat))
    | some es => collect_repos es
  let c :=
    match checkouts with
    | none => (([] : List CachedCheckout), (0 : Nat))
    | some es => collect_checkouts es
  { repos := List.insertionSort CachedRepo.le d.1,
    checkouts := List.insertionSort CachedCheckout.le c.1,
    db_size := d.2,
    checkouts_size := c.2 }

/-- cache.rs `CacheStats::total_size`. -/
def CacheStats.total_size (s : CacheStats) : Nat :=
  s.db_size + s.checkouts_size

/-! ### Theorems for claim C9 -/

/-- C9: every snapshot has both lists sorted by name ascending, each section
size equal to the sum of the sizes of its listed entries, total size equal
to db plus checkouts, and an absent or empty cache root yields empty lists
and zero totals. -/
theorem cache_stats_collect_spec (db checkouts : List DirEntry) :
    List.Sorted CachedRepo.le (CacheStats.collect (some db) (some checkouts)).repos
    ∧ List.Sorted CachedCheckout.le (CacheStats.collect (some db) (some checkouts)).checkouts
    ∧ (CacheStats.collect (some db) (some checkouts)).db_size
        = (((CacheStats.collect (some db) (some checkouts)).repos).map CachedRepo.size).sum
    ∧ (CacheStats.collect (some db) (some checkouts)).checkouts_size
        = (((CacheStats.collect (some db) (some checkouts)).checkouts).map
            CachedCheckout.size).sum
    ∧ (CacheStats.collect (some db) (some checkouts)).total_size
        = (CacheStats.collect (some db) (some checkouts)).db_size
          + (CacheStats.collect (some db) (some checkouts)).checkouts_size
    ∧ CacheStats.collect none none = ⟨[], [], 0, 0⟩
    ∧ CacheStats.collect (some []) (some []) = ⟨[], [], 0, 0⟩ := by
  have hr : ∀ l : List DirEntry,
      (collect_repos l).2 = ((collect_repos l).1.map CachedRepo.size).sum := by
    intro l
    induction l with
    | nil => rfl
    | cons e es ih =>
      by_cases h : e.is_dir = true <;> simp [collect_repos, h, ih]
  have hc : ∀ l : List DirEntry,
      (collect_checkouts l).2 = ((collect_checkouts l).1.map CachedCheckout.size).sum := by
    intro l
    induction l with
    | nil => rfl
    | cons e es ih =>
      by_cases h : e.is_dir = true <;> simp [collect_checkouts, h, ih]
  refine ⟨List.sorted_insertionSort _ _, List.sorted_insertionSort _ _, ?_, ?_, rfl, rfl, rfl⟩
  · show (collect_repos db).2
        = ((List.insertionSort CachedRepo.le (collect_repos db).1).map CachedRepo.size).sum
    rw [hr db]
    exact (List.Perm.sum_eq (List.Perm.map _ (List.perm_insertionSort _ _))).symm
  · show (collect_checkouts checkouts).2
        = ((List.insertionSort CachedCheckout.le (collect_checkouts checkouts).1).map
            CachedCheckout.size).sum
    rw [hc checkouts]
    exact (List.Perm.sum_eq (List.Perm.map _ (List.perm_insertionSort _ _))).symm

/-! ### Lemmas about the string helpers, towards claim C1 -/

theorem splitCh_ne_nil (sep : Char) (s : List Char) : splitCh sep s ≠ [] := by
  induction s with
  | nil => simp [splitCh]
  | cons c cs ih =>
    simp only [splitCh]
    split
    · simp
    · match hsp : splitCh sep cs with
      | [] => exact absurd hsp ih
      | h :: t => simp

theorem splitCh_of_not_mem (sep : Char) (s : List Char) (h : sep ∉ s) :
    splitCh sep s = [s] := by
  induction s with
  | nil => rfl
  | cons c cs ih =>
    simp only [List.mem_cons, not_or] at h
    simp only [splitCh]
    rw [if_neg (fun hc => h.1 hc.symm), ih h.2]

theorem splitCh_append_sep (sep : Char) (a b : List Char) (h : sep ∉ a) :
    splitCh sep (a ++ sep :: b) = a :: splitCh sep b := by
  induction a with
  | nil => simp [splitCh]
  | cons c cs ih =>
    simp only [List.mem_cons, not_or] at h
    show splitCh sep (c :: (cs ++ sep :: b)) = (c :: cs) :: splitCh sep b
    simp only [splitCh]
    rw [if_neg (fun hc => h.1 hc.symm), ih h.2]

theorem dropAfterFirst_pos (pat s : List Char) (h : pat.isPrefixOf s = true) :
    dropAfterFirst pat s = some (s.drop pat.length) := by
  cases s <;> simp [dropAfterFirst, h]

theorem dropAfterFirst_cons_neg (pat : List Char) (c : Char) (cs : List Char)
    (h : pat.isPrefixOf (c :: cs) = false) :
    dropAfterFirst pat (c :: cs) = dropAfterFirst pat cs := by
  simp [dropAfterFirst, h]

theorem dropAfterFirst_none_mono (pat : List Char) (hpat : pat ≠ []) :
    ∀ s t : List Char, t <+: s → dropAfterFirst pat s = none → dropAfterFirst pat t = none := by
  intro s
  induction s with
  | nil =>
    intro t ht hnone
    rw [List.prefix_nil.mp ht]
    exact hnone
  | cons c cs ih =>
    intro t ht hnone
    have hsplit : pat.isPrefixOf (c :: cs) = false ∧ dropAfterFirst pat cs = none := by
      cases hp : pat.isPrefixOf (c :: cs) with
      | true =>
        rw [dropAfterFirst_pos pat _ hp] at hnone
        exact absurd hnone (by simp)
      | false =>
        refine ⟨rfl, ?_⟩
        rwa [dropAfterFirst_cons_neg pat c cs hp] at hnone
    cases t with
    | nil =>
      obtain ⟨p, ps, rfl⟩ : ∃ p ps, pat = p :: ps := by
        cases pat with
        | nil => exact absurd rfl hpat
        | cons p ps => exact ⟨p, ps, rfl⟩
      simp [dropAfterFirst, List.isPrefixOf]
    | cons c' ts =>
      obtain ⟨rfl, hts⟩ : c' = c ∧ ts <+: cs := by
        rcases ht with ⟨u, hu⟩
        injection hu with h1 h2
        exact ⟨h1, u, h2⟩
      have hpt : pat.isPrefixOf (c' :: ts) = false := by
        cases hp : pat.isPrefixOf (c' :: ts) with
        | true =>
          have hcc : pat <+: c' :: cs :=
            List.IsPrefix.trans (List.isPrefixOf_iff_prefix.mp hp)
              (List.cons_prefix_cons.mpr ⟨rfl, hts⟩)
          have hb : pat.isPrefixOf (c' :: cs) = true := (List.isPrefixOf_iff_prefix).mpr hcc
          rw [hsplit.1] at hb
          exact absurd hb (by simp)
        | false => rfl
      rw [dropAfterFirst_cons_neg pat c' ts hpt]
      exact ih ts hts hsplit.2

theorem trimSuffixAux_of_not_suffix (pat : List Char) (fuel : Nat) (s : List Char)
    (h : pat.isSuffixOf s = false) : trimSuffixAux pat fuel s = s := by
  cases fuel <;> simp [trimSuffixAux, h]

theorem trimSuffixAux_fuel_irrel (pat : List Char) (hpat : pat ≠ []) :
    ∀ f₁ f₂ s, s.length ≤ f₁ → s.length ≤ f₂ → trimSuffixAux pat f₁ s = trimSuffixAux pat f₂ s := by
  intro f₁
  induction f₁ with
  | zero =>
    intro f₂ s hs₁ _
    rw [List.length_eq_zero.mp (Nat.le_zero.mp hs₁)]
    cases f₂ with
    | zero => rfl
    | succ m =>
      have : pat.isSuffixOf ([] : List Char) = false := by
        obtain ⟨p, ps, rfl⟩ : ∃ p ps, pat = p :: ps := by
          cases pat with
          | nil => exact absurd rfl hpat
          | cons p ps => exact ⟨p, ps, rfl⟩
        simp [List.isSuffixOf]
      simp [trimSuffixAux, this]
  | succ n ih =>
    intro f₂ s hs₁ hs₂
    cases hsuf : pat.isSuffixOf s with
    | true =>
      have hlen : pat.length ≤ s.length :=
        List.IsSuffix.length_le (List.isSuffixOf_iff_suffix.mp hsuf)
      have hplen : 1 ≤ pat.length := by
        cases pat with
        | nil => exact absurd rfl hpat
        | cons p ps => simp
      cases f₂ with
      | zero =>
        exfalso
        omega
      | succ m =>
        simp only [trimSuffixAux, hsuf, if_true]
        have htlen : (s.take (s.length - pat.length)).length = s.length - pat.length := by
          rw [List.length_take]
          omega
        exact ih m _ (by omega) (by omega)
    | false =>
      rw [trimSuffixAux_of_not_suffix pat _ s hsuf,
        trimSuffixAux_of_not_suffix pat _ s hsuf]

theorem trim_end_matches_of_not_suffix (pat s : List Char) (h : ¬ pat <:+ s) :
    trim_end_matches pat s = s := by
  have hb : pat.isSuffixOf s = false := by
    cases hb : pat.isSuffixOf s with
    | true => exact absurd (List.isSuffixOf_iff_suffix.mp hb) h
    | false => rfl
  exact trimSuffixAux_of_not_suffix pat _ s hb

theorem trim_end_matches_append (pat s : List Char) (hpat : pat ≠ []) :
    trim_end_matches pat (s ++ pat) = trim_end_matches pat s := by
  have hplen : 1 ≤ pat.length := by
    cases pat with
    | nil => exact absurd rfl hpat
    | cons p ps => simp
  have hsuf : pat.isSuffixOf (s ++ pat) = true :=
    (List.isSuffixOf_iff_suffix).mpr (List.suffix_append s pat)
  have hlen : (s ++ pat).length = s.length + pat.length := List.length_append s pat
  unfold trim_end_matches
  rw [hlen]
  have hpos : s.length + pat.length = (s.length + pat.length - 1) + 1 := by omega
  rw [hpos]
  simp only [trimSuffixAux, hsuf, if_true]
  have htake : (s ++ pat).take ((s ++ pat).length - pat.length) = s := by
    rw [hlen]
    have he : s.length + pat.length - pat.length = s.length := by omega
    rw [he, List.take_append_of_le_length (Nat.le_refl _), List.take_length]
  rw [htake]
  exact trimSuffixAux_fuel_irrel pat hpat _ _ s (by omega) (Nat.le_refl _)

theorem trimSuffixAux_prefix (pat : List Char) :
    ∀ fuel s, trimSuffixAux pat fuel s <+: s := by
  intro fuel
  induction fuel with
  | zero => intro s; exact List.prefix_refl s
  | succ n ih =>
    intro s
    cases hsuf : pat.isSuffixOf s with
    | true =>
      simp only [trimSuffixAux, hsuf, if_true]
      exact List.IsPrefix.trans (ih _) ( List.take_prefix _ s)
    | false => rw [trimSuffixAux_of_not_suffix pat _ s hsuf]

theorem dotgit_not_suffix_slash (a repo : List Char) (hrepo : ¬ dotGitSuffix <:+ repo) :
    ¬ dotGitSuffix <:+ a ++ '/' :: repo := by
  intro h
  have h2 : ('/' :: repo) <:+ a ++ '/' :: repo := List.suffix_append a ('/' :: repo)
  rcases List.suffix_or_suffix_of_suffix h h2 with h3 | h3
  · rcases List.suffix_cons_iff.mp h3 with h4 | h4
    · rw [show dotGitSuffix = '.' :: ['g', 'i', 't'] from rfl] at h4
      injection h4 with h5 _
      exact absurd h5 (by decide)
    · exact hrepo h4
  · have hm : '/' ∈ dotGitSuffix := List.IsSuffix.mem (List.mem_cons_self '/' repo) h3
    simp [dotGitSuffix] at hm

theorem isPrefixOf_cons_of_ne (a b : Char) (as bs : List Char) (h : (a == b) = false) :
    (a :: as).isPrefixOf (b :: bs) = false := by
  simp only [List.isPrefixOf, h, Bool.false_and]

theorem dropAfterFirst_schemeSep_https (R : List Char) :
    dropAfterFirst schemeSep (httpsScheme ++ R) = some R := by
  show dropAfterFirst schemeSep
      ('h' :: 't' :: 't' :: 'p' :: 's' :: ':' :: '/' :: '/' :: R) = some R
  rw [dropAfterFirst_cons_neg schemeSep 'h' _
      (isPrefixOf_cons_of_ne ':' 'h' ['/', '/'] _ (by decide)),
    dropAfterFirst_cons_neg schemeSep 't' _
      (isPrefixOf_cons_of_ne ':' 't' ['/', '/'] _ (by decide)),
    dropAfterFirst_cons_neg schemeSep 't' _
      (isPrefixOf_cons_of_ne ':' 't' ['/', '/'] _ (by decide)),
    dropAfterFirst_cons_neg schemeSep 'p' _
      (isPrefixOf_cons_of_ne ':' 'p' ['/', '/'] _ (by decide)),
    dropAfterFirst_cons_neg schemeSep 's' _
      (isPrefixOf_cons_of_ne ':' 's' ['/', '/'] _ (by decide))]
  exact dropAfterFirst_pos schemeSep (schemeSep ++ R)
    ((List.isPrefixOf_iff_prefix).mpr (List.prefix_append schemeSep R))

theorem parseUrlStyle_https (host owner repo : List Char)
    (hh : '/' ∉ host) (ho : '/' ∉ owner) (hr : '/' ∉ repo) :
    parseUrlStyle (httpsScheme ++ (host ++ ('/' :: (owner ++ ('/' :: repo)))))
      = some (owner, repo) := by
  have hdrop := dropAfterFirst_schemeSep_https (host ++ ('/' :: (owner ++ ('/' :: repo))))
  have hsplit : splitCh '/' (host ++ ('/' :: (owner ++ ('/' :: repo))))
      = host :: owner :: [repo] := by
    rw [splitCh_append_sep '/' host _ hh, splitCh_append_sep '/' owner _ ho,
      splitCh_of_not_mem '/' repo hr]
  unfold parseUrlStyle
  rw [hdrop]
  simp [hsplit, List.getD]

theorem parse_trimmed_https (host owner repo : List Char)
    (hh : '/' ∉ host) (ho : '/' ∉ owner) (hr : '/' ∉ repo) :
    parse_owner_repo_trimmed (httpsScheme ++ (host ++ ('/' :: (owner ++ ('/' :: repo)))))
      = some (owner, repo) := by
  have hnp : sshUserPrefix.isPrefixOf
      (httpsScheme ++ (host ++ ('/' :: (owner ++ ('/' :: repo))))) = false :=
    isPrefixOf_cons_of_ne 'g' 'h' ['i', 't', '@'] _ (by decide)
  unfold parse_owner_repo_trimmed
  rw [hnp]
  exact parseUrlStyle_https host owner repo hh ho hr

theorem parse_trimmed_ssh (host owner repo : List Char)
    (hch : ':' ∉ host) (hco : ':' ∉ owner) (hcr : ':' ∉ repo)
    (ho : '/' ∉ owner) (hr : '/' ∉ repo) :
    parse_owner_repo_trimmed (sshUserPrefix ++ (host ++ (':' :: (owner ++ ('/' :: repo)))))
      = some (owner, repo) := by
  have hpre : sshUserPrefix.isPrefixOf
      (sshUserPrefix ++ (host ++ (':' :: (owner ++ ('/' :: repo))))) = true :=
    (List.isPrefixOf_iff_prefix).mpr (List.prefix_append _ _)
  have hsplit : splitCh ':' (sshUserPrefix ++ (host ++ (':' :: (owner ++ ('/' :: repo)))))
      = (sshUserPrefix ++ host) :: [owner ++ ('/' :: repo)] := by
    have h1 : ':' ∉ sshUserPrefix ++ host := by
      intro hmem
      rcases List.mem_append.mp hmem with hm | hm
      · exact absurd hm (by decide)
      · exact hch hm
    have e : sshUserPrefix ++ (host ++ (':' :: (owner ++ ('/' :: repo))))
        = (sshUserPrefix ++ host) ++ ':' :: (owner ++ ('/' :: repo)) := by
      rw [List.append_assoc]
    have h2 : ':' ∉ owner ++ ('/' :: repo) := by
      intro hmem
      rcases List.mem_append.mp hmem with hm | hm
      · exact hco hm
      · rcases List.mem_cons.mp hm with hm | hm
        · exact absurd hm (by decide)
        · exact hcr hm
    rw [e, splitCh_append_sep ':' _ _ h1, splitCh_of_not_mem ':' _ h2]
  have hsplit2 : splitCh '/' (owner ++ ('/' :: repo)) = owner :: [repo] := by
    rw [splitCh_append_sep '/' owner repo ho, splitCh_of_not_mem '/' repo hr]
  unfold parse_owner_repo_trimmed
  rw [hpre]
  simp [hsplit, hsplit2, List.getD]

/-! ### Theorems for claim C1 -/

/-- C1 counterexample: the claim fails as stated.  An SSH-style URL with
user `alice` (the claim allows any user) yields `none` because the code only
recognises the literal prefix `git@`; and the string
`https://github.com/a/b/c` matches neither claimed shape (its path has four
segments) yet parses to `some (a, b)` instead of `none`. -/
theorem parse_owner_repo_counterexample :
    parse_owner_repo "alice@github.com:anthropics/skills".toList = none
    ∧ parse_owner_repo "https://github.com/a/b/c".toList
        = some ("a".toList, "b".toList) := by
  constructor
  · decide
  · decide

/-- C1 amended: for URL-style addresses `https://host/OWNER/REPO[.git]` and
SSH-style addresses `git@host:OWNER/REPO[.git]` — the SSH user must be the
literal `git` — with slash-free host, OWNER and REPO (and, for SSH,
colon-free as well), and with REPO not itself ending in `.git`,
parse_owner_repo returns exactly `(OWNER, REPO)`; and any string that does
not begin with `git@` and contains no `://` yields `none` rather than
failing.  (A string with extra path segments may still parse: the first two
segments after the host are taken.) -/
theorem parse_owner_repo_amended :
    (∀ host owner repo : List Char,
      host ≠ [] → owner ≠ [] → repo ≠ [] →
      '/' ∉ host → '/' ∉ owner → '/' ∉ repo →
      ¬ dotGitSuffix <:+ repo →
      parse_owner_repo (httpsScheme ++ (host ++ ('/' :: (owner ++ ('/' :: repo)))))
          = some (owner, repo)
      ∧ parse_owner_repo
            ((httpsScheme ++ (host ++ ('/' :: (owner ++ ('/' :: repo))))) ++ dotGitSuffix)
          = some (owner, repo))
    ∧ (∀ host owner repo : List Char,
      host ≠ [] → owner ≠ [] → repo ≠ [] →
      ':' ∉ host → ':' ∉ owner → ':' ∉ repo →
      '/' ∉ owner → '/' ∉ repo →
      ¬ dotGitSuffix <:+ repo →
      parse_owner_repo (sshUserPrefix ++ (host ++ (':' :: (owner ++ ('/' :: repo)))))
          = some (owner, repo)
      ∧ parse_owner_repo
            ((sshUserPrefix ++ (host ++ (':' :: (owner ++ ('/' :: repo))))) ++ dotGitSuffix)
          = some (owner, repo))
    ∧ (∀ s : List Char,
      ¬ sshUserPrefix <+: s → dropAfterFirst schemeSep s = none →
      parse_owner_repo s = none) := by
  refine ⟨?_, ?_, ?_⟩
  · intro host owner repo _ _ _ hh ho hr hgit
    have hshape : httpsScheme ++ (host ++ ('/' :: (owner ++ ('/' :: repo))))
        = (httpsScheme ++ host ++ ['/'] ++ owner) ++ '/' :: repo := by
      simp [List.append_assoc]
    have hnsuf : ¬ dotGitSuffix <:+
        httpsScheme ++ (host ++ ('/' :: (owner ++ ('/' :: repo)))) := by
      rw [hshape]
      exact dotgit_not_suffix_slash _ repo hgit
    have htrim : trim_end_matches dotGitSuffix
        (httpsScheme ++ (host ++ ('/' :: (owner ++ ('/' :: repo)))))
        = httpsScheme ++ (host ++ ('/' :: (owner ++ ('/' :: repo)))) :=
      trim_end_matches_of_not_suffix _ _ hnsuf
    constructor
    · show parse_owner_repo_trimmed (trim_end_matches dotGitSuffix _) = _
      rw [htrim]
      exact parse_trimmed_https host owner repo hh ho hr
    · show parse_owner_repo_trimmed (trim_end_matches dotGitSuffix _) = _
      rw [trim_end_matches_append dotGitSuffix _ (by decide), htrim]
      exact parse_trimmed_https host owner repo hh ho hr
  · intro host owner repo _ _ _ hch hco hcr ho hr hgit
    have hshape : sshUserPrefix ++ (host ++ (':' :: (owner ++ ('/' :: repo))))
        = (sshUserPrefix ++ host ++ [':'] ++ owner) ++ '/' :: repo := by
      simp [List.append_assoc]
    have hnsuf : ¬ dotGitSuffix <:+
        sshUserPrefix ++ (host ++ (':' :: (owner ++ ('/' :: repo)))) := by
      rw [hshape]
      exact dotgit_not_suffix_slash _ repo hgit
    have htrim : trim_end_matches dotGitSuffix
        (sshUserPrefix ++ (host ++ (':' :: (owner ++ ('/' :: repo)))))
        = sshUserPrefix ++ (host ++ (':' :: (owner ++ ('/' :: repo)))) :=
      trim_end_matches_of_not_suffix _ _ hnsuf
    constructor
    · show parse_owner_repo_trimmed (trim_end_matches dotGitSuffix _) = _
      rw [htrim]
      exact parse_trimmed_ssh host owner repo hch hco hcr ho hr
    · show parse_owner_repo_trimmed (trim_end_matches dotGitSuffix _) = _
      rw [trim_end_matches_append dotGitSuffix _ (by decide), htrim]
      exact parse_trimmed_ssh host owner repo hch hco hcr ho hr
  · intro s h1 h2
    have ht : trim_end_matches dotGitSuffix s <+: s := trimSuffixAux_prefix dotGitSuffix s.length s
    have hb : sshUserPrefix.isPrefixOf (trim_end_matches dotGitSuffix s) = false := by
      cases hbb : sshUserPrefix.isPrefixOf (trim_end_matches dotGitSuffix s) with
      | true =>
        exact absurd (List.IsPrefix.trans (List.isPrefixOf_iff_prefix.mp hbb) ht) h1
      | false => rfl
    have hd : dropAfterFirst schemeSep (trim_end_matches dotGitSuffix s) = none :=
      dropAfterFirst_none_mono schemeSep (by decide) s _ ht h2
    show parse_owner_repo_trimmed (trim_end_matches dotGitSuffix s) = none
    unfold parse_owner_repo_trimmed parseUrlStyle
    rw [hb, hd]
    simp

/-- Witness for C1 amended at concrete inputs: the HTTPS and SSH forms of
the canonical example URL, with and without the `.git` suffix, and a string
matching neither recognised shape. -/
theorem parse_owner_repo_amended_witness :
    parse_owner_repo "https://github.com/anthropics/skills".toList
        = some ("anthropics".toList, "skills".toList)
    ∧ parse_owner_repo "git@github.com:anthropics/skills.git".toList
        = some ("anthropics".toList, "skills".toList)
    ∧ parse_owner_repo "not a url".toList = none := by
  refine ⟨?_, ?_, ?_⟩
  · have h := (parse_owner_repo_amended.1 "github.com".toList "anthropics".toList
        "skills".toList (by decide) (by decide) (by decide) (by decide) (by decide)
        (by decide) (by decide)).1
    have e : "https://github.com/anthropics/skills".toList
        = httpsScheme ++ ("github.com".toList
            ++ ('/' :: ("anthropics".toList ++ ('/' :: "skills".toList)))) := by decide
    rw [e, h]
  · have h := (parse_owner_repo_amended.2.1 "github.com".toList "anthropics".toList
        "skills".toList (by decide) (by decide) (by decide) (by decide) (by decide)
        (by decide) (by decide) (by decide) (by decide)).2
    have e : "git@github.com:anthropics/skills.git".toList
        = (sshUserPrefix ++ ("github.com".toList
            ++ (':' :: ("anthropics".toList ++ ('/' :: "skills".toList))))) ++ dotGitSuffix := by
      decide
    rw [e, h]
  · exact parse_owner_repo_amended.2.2 "not a url".toList (by decide) (by decide)

end Skillz
